import Mathlib

/-!
Verification development for the starbound-mcp extraction pipeline.

The definitions below are shallow embeddings of the TypeScript extraction
scripts (`src/scripts/extract-fu.ts`, `src/scripts/extract-lua-docs.ts`,
`src/scripts/extract-openstarbound.ts`) together with the storage layer
behaviour fixed by `src/db/schema.ts`.  Strings are modelled as `List Char`
where character-level scanning matters and as `String` elsewhere; JavaScript
numbers appearing as exact decimal literals are modelled as rationals.
-/

namespace StarboundMcp

/-! ## Comment-aware sanitizer (`stripJsonComments`, extract-fu.ts lines 25-67)

The JS function is a single-pass loop with an `inString` flag and the active
quote character `stringChar`.  We model the loop as recursion over the
remaining character list; the emitted prefix is produced directly.
-/

/-- Line-comment skip: `while (i < text.length && text[i] !== "\n") i++`.
The newline itself is not consumed by the skip loop. -/
def skipLine (l : List Char) : List Char := l.dropWhile (fun c => c ≠ '\n')

/-- Block-comment skip: after consuming `/*`, the JS loop advances while
`i + 1 < length` and the next two characters are not `*/`; it then jumps two
characters ahead (consuming the terminator, or everything if unterminated). -/
def skipBlock : List Char → List Char
  | '*' :: '/' :: rest => rest
  | _ :: rest => skipBlock rest
  | [] => []

theorem skipBlock_sublist : ∀ l : List Char, (skipBlock l).Sublist l := by
  intro l
  induction l using skipBlock.induct with
  | case1 rest => simp [skipBlock, List.Sublist.trans (List.sublist_cons_self _ _) (List.sublist_cons_self _ _)]
  | case2 c rest h ih =>
      rw [skipBlock]
      · exact ih.trans (List.sublist_cons_self _ _)
      · exact h
  | case3 => simp [skipBlock]

theorem skipBlock_length_le (l : List Char) : (skipBlock l).length ≤ l.length :=
  (skipBlock_sublist l).length_le

theorem skipLine_sublist (l : List Char) : (skipLine l).Sublist l :=
  List.dropWhile_sublist _

theorem skipLine_length_le (l : List Char) : (skipLine l).length ≤ l.length :=
  (skipLine_sublist l).length_le

/-- The sanitizer loop.  First argument is `inString`, second is `stringChar`,
third the remaining input.  Mirrors extract-fu.ts lines 33-64 case by case. -/
def stripGo : Bool → Char → List Char → List Char
  | true, q, '\\' :: c :: rest => '\\' :: c :: stripGo true q rest
  | true, q, c :: rest =>
      if c = q then c :: stripGo false q rest else c :: stripGo true q rest
  | false, q, '/' :: '/' :: rest => stripGo false q (skipLine rest)
  | false, q, '/' :: '*' :: rest => stripGo false q (skipBlock rest)
  | false, q, c :: rest =>
      if c = '"' ∨ c = '\'' then c :: stripGo true c rest else c :: stripGo false q rest
  | _, _, [] => []
termination_by _ _ l => l.length
decreasing_by
  all_goals simp only [List.length_cons]
  all_goals first
    | omega
    | exact Nat.lt_succ_of_le (Nat.le_succ_of_le (skipLine_length_le _))
    | exact Nat.lt_succ_of_le (Nat.le_succ_of_le (skipBlock_length_le _))

/-- `stripJsonComments`.  In JS `stringChar` is initialised to the empty
string; it is never compared against before being overwritten on entering a
string, so any fixed character is a faithful initial value. -/
def stripJsonComments (l : List Char) : List Char := stripGo false ' ' l

/-- Specification-side description of the scanner's in-string segment: the
exact characters consumed while `inString` holds, up to and including the
first quote `q` that is not preceded by a backslash escape. -/
def strTake (q : Char) : List Char → List Char
  | '\\' :: c :: rest => '\\' :: c :: strTake q rest
  | c :: rest => if c = q then [c] else c :: strTake q rest
  | [] => []

/-- The input remaining after the in-string segment of `strTake`. -/
def strDrop (q : Char) : List Char → List Char
  | '\\' :: _ :: rest => strDrop q rest
  | c :: rest => if c = q then rest else strDrop q rest
  | [] => []

theorem stripGo_nil (b : Bool) (q : Char) : stripGo b q [] = [] := by
  cases b <;> simp [stripGo]

/-- `strTake` really is an exact prefix of the input: splitting at the closing
quote loses and changes nothing. -/
theorem strTake_append_strDrop (q : Char) : ∀ l : List Char, strTake q l ++ strDrop q l = l := by
  intro l
  induction l using strTake.induct q with
  | case1 c rest ih => simp [strTake, strDrop, ih]
  | case2 rest h =>
      rcases hq : q == '\\' with _ | _
      · have hq' : q ≠ '\\' := by simpa using hq
        simp [strTake, strDrop, hq']
      · have hq' : q = '\\' := by simpa using hq
        rcases rest with _ | ⟨c2, rest2⟩
        · simp [strTake, strDrop]
        · exact (h c2 rest2 hq' rfl).elim
  | case3 c rest h hq ih =>
      rcases hc : c == '\\' with _ | _
      · have hc' : c ≠ '\\' := by simpa using hc
        simp [strTake, strDrop, hc', hq, ih]
      · have hc' : c = '\\' := by simpa using hc
        rcases rest with _ | ⟨c2, rest2⟩
        · simp [strTake, strDrop, hq]
        · exact (h c2 rest2 hc' rfl).elim
  | case4 => simp [strTake, strDrop]

/-- While inside a string the scanner copies the input verbatim (escape pairs
included) up to the closing quote, then continues outside the string. -/
theorem stripGo_inString (q : Char) :
    ∀ l : List Char, stripGo true q l = strTake q l ++ stripGo false q (strDrop q l) := by
  intro l
  induction l using strTake.induct q with
  | case1 c rest ih => simp [strTake, strDrop, stripGo, ih]
  | case2 rest h =>
      rcases hq : q == '\\' with _ | _
      · have hq' : q ≠ '\\' := by simpa using hq
        simp [strTake, strDrop, stripGo, hq']
      · have hq' : q = '\\' := by simpa using hq
        rcases rest with _ | ⟨c2, rest2⟩
        · simp [strTake, strDrop, stripGo, stripGo_nil]
        · exact (h c2 rest2 hq' rfl).elim
  | case3 c rest h hq ih =>
      rcases hc : c == '\\' with _ | _
      · have hc' : c ≠ '\\' := by simpa using hc
        simp [strTake, strDrop, stripGo, hc', hq, ih]
      · have hc' : c = '\\' := by simpa using hc
        rcases rest with _ | ⟨c2, rest2⟩
        · simp [strTake, strDrop, stripGo, hq, stripGo_nil]
        · exact (h c2 rest2 hc' rfl).elim
  | case4 => simp [strTake, strDrop, stripGo_nil]

/-- C3 -- The comment-stripping sanitizer leaves the contents of string
literals byte-identical: once inside a string the scanner emits exactly the
consumed input (so a `//` inside a string is never removed, and a
backslash-escaped quote is consumed as an escape pair and never ends the
string early), and concretely `stripJsonComments` leaves
`{"a":"http://x"}` unchanged. -/
theorem stripJsonComments_preserves_strings :
    (∀ (q : Char) (l : List Char),
        stripGo true q l = strTake q l ++ stripGo false q (strDrop q l) ∧
        strTake q l ++ strDrop q l = l) ∧
    stripJsonComments ("\x7b\"a\":\"http://x\"\x7d".toList) = "\x7b\"a\":\"http://x\"\x7d".toList :=
  ⟨fun q l => ⟨stripGo_inString q l, strTake_append_strDrop q l⟩, by
    simp [stripJsonComments, stripGo, String.toList]⟩

/-- Comment detector mirroring the scanner's states: `true` iff the scan
never meets `//` or `/*` while outside a string. -/
def noCommentsGo : Bool → Char → List Char → Bool
  | true, q, '\\' :: _ :: rest => noCommentsGo true q rest
  | true, q, c :: rest =>
      if c = q then noCommentsGo false q rest else noCommentsGo true q rest
  | false, _, '/' :: '/' :: _ => false
  | false, _, '/' :: '*' :: _ => false
  | false, q, c :: rest =>
      if c = '"' ∨ c = '\'' then noCommentsGo true c rest else noCommentsGo false q rest
  | _, _, [] => true

/-- C8 -- On input that contains no comment sequence (`//` or `/*`) outside
of string literals, `stripJsonComments` is the identity transform. -/
theorem stripJsonComments_identity (l : List Char)
    (h : noCommentsGo false ' ' l = true) : stripJsonComments l = l := by
  suffices H : ∀ (b : Bool) (q : Char) (m : List Char), noCommentsGo b q m = true → stripGo b q m = m by
    exact H false ' ' l h
  intro b q m
  induction b, q, m using stripGo.induct with
  | case1 q c rest ih => intro hn; simp only [stripGo, noCommentsGo] at *; simp [ih hn]
  | case2 c rest h ih =>
      intro hn
      rcases hc : c == '\\' with _ | _
      · have hc' : c ≠ '\\' := by simpa using hc
        have e1 : stripGo true c (c :: rest) = c :: stripGo false c rest := by
          simp [stripGo, hc']
        have e2 : noCommentsGo true c (c :: rest) = noCommentsGo false c rest := by
          simp [noCommentsGo, hc']
        rw [e1, ih (e2 ▸ hn)]
      · have hc' : c = '\\' := by simpa using hc
        rcases rest with _ | ⟨c2, rest2⟩
        · simp_all [stripGo, noCommentsGo]
        · exact (h c2 rest2 hc' rfl).elim
  | case3 q c rest h hq ih =>
      intro hn
      rcases hc : c == '\\' with _ | _
      · have hc' : c ≠ '\\' := by simpa using hc
        have e1 : stripGo true q (c :: rest) = c :: stripGo true q rest := by
          simp [stripGo, hc', hq]
        have e2 : noCommentsGo true q (c :: rest) = noCommentsGo true q rest := by
          simp [noCommentsGo, hc', hq]
        rw [e1, ih (e2 ▸ hn)]
      · have hc' : c = '\\' := by simpa using hc
        rcases rest with _ | ⟨c2, rest2⟩
        · simp_all [stripGo, noCommentsGo]
        · exact (h c2 rest2 hc' rfl).elim
  | case4 q rest ih => intro hn; rw [noCommentsGo] at hn; exact absurd hn (by simp)
  | case5 q rest ih => intro hn; rw [noCommentsGo] at hn; exact absurd hn (by simp)
  | case6 q c rest h1 h2 hq ih =>
      intro hn
      have e1 : stripGo false q (c :: rest) = c :: stripGo true c rest := by
        rw [stripGo] <;> simp_all
      have e2 : noCommentsGo false q (c :: rest) = noCommentsGo true c rest := by
        rw [noCommentsGo] <;> simp_all
      rw [e1, ih (e2 ▸ hn)]
  | case7 q c rest h1 h2 hq ih =>
      intro hn
      have e1 : stripGo false q (c :: rest) = c :: stripGo false q rest := by
        rw [stripGo] <;> simp_all
      have e2 : noCommentsGo false q (c :: rest) = noCommentsGo false q rest := by
        rw [noCommentsGo] <;> simp_all
      rw [e1, ih (e2 ▸ hn)]
  | case8 b q => intro _; exact stripGo_nil b q

/-- Witness for C8 at a concrete comment-free input. -/
theorem stripJsonComments_identity_witness :
    noCommentsGo false ' ' ("[1, \"a//b\", 2]".toList) = true ∧
    stripJsonComments ("[1, \"a//b\", 2]".toList) = "[1, \"a//b\", 2]".toList :=
  ⟨by decide, stripJsonComments_identity _ (by decide)⟩

/-- C10 -- The sanitizer only deletes characters: its output is a subsequence
of its input (so it never inserts, duplicates or reorders characters), and in
particular the output's length never exceeds the input's length. -/
theorem stripJsonComments_sublist (l : List Char) :
    (stripJsonComments l).Sublist l ∧ (stripJsonComments l).length ≤ l.length := by
  suffices H : ∀ (b : Bool) (q : Char) (m : List Char), (stripGo b q m).Sublist m by
    exact ⟨H false ' ' l, (H false ' ' l).length_le⟩
  intro b q m
  induction b, q, m using stripGo.induct with
  | case1 q c rest ih =>
      have e1 : stripGo true q ('\\' :: c :: rest) = '\\' :: c :: stripGo true q rest := by
        simp [stripGo]
      rw [e1]; exact List.Sublist.cons₂ _ (List.Sublist.cons₂ _ ih)
  | case2 c rest h ih =>
      rcases hc : c == '\\' with _ | _
      · have hc' : c ≠ '\\' := by simpa using hc
        have e1 : stripGo true c (c :: rest) = c :: stripGo false c rest := by
          simp [stripGo, hc']
        rw [e1]; exact List.Sublist.cons₂ _ ih
      · have hc' : c = '\\' := by simpa using hc
        rcases rest with _ | ⟨c2, rest2⟩
        · have e1 : stripGo true c [c] = c :: stripGo false c [] := by
            simp [stripGo]
          rw [e1]; exact List.Sublist.cons₂ _ ih
        · exact (h c2 rest2 hc' rfl).elim
  | case3 q c rest h hq ih =>
      rcases hc : c == '\\' with _ | _
      · have hc' : c ≠ '\\' := by simpa using hc
        have e1 : stripGo true q (c :: rest) = c :: stripGo true q rest := by
          simp [stripGo, hc', hq]
        rw [e1]; exact List.Sublist.cons₂ _ ih
      · have hc' : c = '\\' := by simpa using hc
        rcases rest with _ | ⟨c2, rest2⟩
        · have e1 : stripGo true q [c] = c :: stripGo true q [] := by
            simp [stripGo, hq]
          rw [e1]; exact List.Sublist.cons₂ _ ih
        · exact (h c2 rest2 hc' rfl).elim
  | case4 q rest ih =>
      have e1 : stripGo false q ('/' :: '/' :: rest) = stripGo false q (skipLine rest) := by
        simp [stripGo]
      rw [e1]
      exact (ih.trans (skipLine_sublist rest)).trans
        (List.Sublist.cons _ (List.Sublist.cons _ (List.Sublist.refl _)))
  | case5 q rest ih =>
      have e1 : stripGo false q ('/' :: '*' :: rest) = stripGo false q (skipBlock rest) := by
        simp [stripGo]
      rw [e1]
      exact (ih.trans (skipBlock_sublist rest)).trans
        (List.Sublist.cons _ (List.Sublist.cons _ (List.Sublist.refl _)))
  | case6 q c rest h1 h2 hq ih =>
      have e1 : stripGo false q (c :: rest) = c :: stripGo true c rest := by
        rw [stripGo] <;> simp_all
      rw [e1]; exact List.Sublist.cons₂ _ ih
  | case7 q c rest h1 h2 hq ih =>
      have e1 : stripGo false q (c :: rest) = c :: stripGo false q rest := by
        rw [stripGo] <;> simp_all
      rw [e1]; exact List.Sublist.cons₂ _ ih
  | case8 b q => simp [stripGo_nil]

/-! ## Centrifuge rarity tiers (`insertData`, extract-fu.ts line 469)

`chance: o.rarity === "common" ? 0.9 : o.rarity === "uncommon" ? 0.5 :
o.rarity === "rare" ? 0.2 : 0.05`.  The JS decimal literals are modelled as
rationals. -/

def rarityChance (r : String) : ℚ :=
  if r = "common" then 0.9
  else if r = "uncommon" then 0.5
  else if r = "rare" then 0.2
  else 0.05

/-- C5 -- The fixed rarity-tier mapping sends "common" to 0.9 and "rarest" to
0.05, and is strictly decreasing across the four known tiers in the order
common, uncommon, rare, rarest. -/
theorem rarityChance_strictly_decreasing :
    rarityChance "common" = 0.9 ∧ rarityChance "uncommon" = 0.5 ∧
    rarityChance "rare" = 0.2 ∧ rarityChance "rarest" = 0.05 ∧
    rarityChance "uncommon" < rarityChance "common" ∧
    rarityChance "rare" < rarityChance "uncommon" ∧
    rarityChance "rarest" < rarityChance "rare" := by
  refine ⟨?_, ?_, ?_, ?_, ?_, ?_, ?_⟩ <;> simp only [rarityChance] <;> simp <;> norm_num

/-! ## Crafting-recipe extraction (`extractRecipes`, extract-fu.ts lines 117-146)

`readJsonFile` returns `null` on any read/parse failure; the parsed JSON is
accessed through the shape asserted by the TS cast.  A file is modelled as
`Option RecipeData` (`none` = unreadable/unparseable).  Absent-or-falsy JSON
members are modelled with `Option` (for the output item, `some ""` is the
falsy non-missing case the `!data.output.item` check also rejects). -/

structure InputEntry where
  item : Option String
  count : Option Int
deriving DecidableEq, Repr

structure OutputSpec where
  item : Option String
  count : Option Int
deriving DecidableEq, Repr

structure RecipeData where
  input : Option (List InputEntry)
  output : Option OutputSpec
  groups : Option (List String)
  duration : Option ℚ
deriving DecidableEq, Repr

structure ParsedRecipe where
  outputItem : String
  outputCount : Int
  station : Option String
  inputs : List (Option String × Int)
  groups : List String
  duration : Option ℚ
deriving DecidableEq, Repr

/-- The per-file body of the `extractRecipes` loop: `continue` on a missing
parse, missing `output`, missing `input` or falsy `output.item`, otherwise
build the record (`count ?? 1`, `groups?.[0] ?? null`, `duration ?? null`). -/
def parseRecipeFile : Option RecipeData → Option ParsedRecipe
  | none => none
  | some data =>
    match data.output, data.input with
    | some out, some inp =>
      match out.item with
      | some it =>
          if it = "" then none
          else
            some { outputItem := it
                   outputCount := out.count.getD 1
                   station := (data.groups.getD []).head?
                   inputs := inp.map (fun i => (i.item, i.count.getD 1))
                   groups := data.groups.getD []
                   duration := data.duration }
      | none => none
    | _, _ => none

/-- The skip condition of the two `continue` statements. -/
def recipeSkipped : Option RecipeData → Bool
  | none => true
  | some data =>
    data.output.isNone || data.input.isNone ||
      (match data.output with
       | some out => out.item.isNone || out.item == some ""
       | none => true)

def extractRecipes (files : List (Option RecipeData)) : List ParsedRecipe :=
  files.filterMap parseRecipeFile

/-- C7 -- A recipe file lacking a usable output item or an input list is
skipped: it produces no record, and its presence in the processed list does
not affect the records contributed by the files before or after it. -/
theorem extractRecipes_skips_bad_file (xs : List (Option RecipeData))
    (d : Option RecipeData) (ys : List (Option RecipeData))
    (h : recipeSkipped d = true) :
    parseRecipeFile d = none ∧
    extractRecipes (xs ++ d :: ys) = extractRecipes xs ++ extractRecipes ys := by
  have hp : parseRecipeFile d = none := by
    rcases d with _ | ⟨inp, out, gr, du⟩
    · rfl
    · rcases out with _ | ⟨it, cnt⟩
      · rfl
      · rcases inp with _ | inp
        · rfl
        · rcases it with _ | it
          · rfl
          · simp only [recipeSkipped, Option.isNone_some, Bool.false_or, Option.isNone_none,
              beq_iff_eq, Option.some.injEq] at h
            simp [parseRecipeFile, h]
  refine ⟨hp, ?_⟩
  simp [extractRecipes, List.filterMap_append, List.filterMap_cons, hp]

def goodRecipeFileA : Option RecipeData :=
  some { input := some [{ item := some "fu_ore", count := some 2 }]
         output := some { item := some "fu_bar", count := some 1 }
         groups := some ["furnace"]
         duration := none }

def badRecipeFile : Option RecipeData :=
  some { input := some [{ item := some "fu_ore", count := some 2 }]
         output := some { item := none, count := some 1 }
         groups := none
         duration := none }

def goodRecipeFileB : Option RecipeData :=
  some { input := some [{ item := some "sand", count := none }]
         output := some { item := some "glass", count := none }
         groups := none
         duration := some 5 }

/-- Witness for C7 at a concrete file list. -/
theorem extractRecipes_skips_bad_file_witness :
    recipeSkipped badRecipeFile = true ∧
    extractRecipes ([goodRecipeFileA] ++ badRecipeFile :: [goodRecipeFileB]) =
      extractRecipes [goodRecipeFileA] ++ extractRecipes [goodRecipeFileB] :=
  ⟨by decide, (extractRecipes_skips_bad_file [goodRecipeFileA] badRecipeFile [goodRecipeFileB]
      (by decide)).2⟩

/-! ## Research-tree extraction (`extractResearchTrees`, extract-fu.ts lines 304-395)

A config file is modelled as `Option ResearchFile`: `none` when the file fails
to parse or has no truthy `researchTree` member (the `!data || !data.researchTree`
check), `some f` otherwise.  A node body that is not a JSON object (the
`typeof nodeData !== "object"` checks of both passes) is modelled as `none`
inside the per-tree node list.  Pass 2 re-reads the same file set, so both
passes consume the same `files` value. -/

structure ResearchNodeBody where
  price : List (String × Int)
  children : List String
  unlocks : List String
deriving DecidableEq, Repr

structure ResearchStrings where
  trees : List (String × String)
  research : List (String × Option String × Option String)
deriving DecidableEq, Repr

structure ResearchFile where
  researchTree : List (String × List (String × Option ResearchNodeBody))
  strings : ResearchStrings
deriving DecidableEq, Repr

structure ParsedResearchNode where
  tree : String
  nodeId : String
  name : String
  description : String
  cost : List (String × Int)
  prerequisites : List String
  unlocks : List String
deriving DecidableEq, Repr

/-- Pass 1 (lines 311-352): every node is pushed with an empty
`prerequisites` list; names fall back to the raw ids via
`strings?.trees?.[treeId] ?? treeId` and `strings?.research?.[nodeId]`. -/
def researchPass1 (files : List (Option ResearchFile)) : List ParsedResearchNode :=
  files.flatMap fun fileData =>
    match fileData with
    | none => []
    | some f =>
      f.researchTree.flatMap fun tEntry =>
        tEntry.2.filterMap fun nEntry =>
          nEntry.2.map fun body =>
            let ns := (List.lookup nEntry.1 f.strings.research).getD (none, none)
            { tree := (List.lookup tEntry.1 f.strings.trees).getD tEntry.1
              nodeId := tEntry.1 ++ ":" ++ nEntry.1
              name := ns.1.getD nEntry.1
              description := ns.2.getD ""
              cost := body.price
              prerequisites := []
              unlocks := body.unlocks }

/-- The authored child adjacency re-scanned by pass 2 (lines 367-387), as the
list of `(fullChildId, fullParentId)` pairs in scan order. -/
def researchEdges (files : List (Option ResearchFile)) : List (String × String) :=
  files.flatMap fun fileData =>
    match fileData with
    | none => []
    | some f =>
      f.researchTree.flatMap fun tEntry =>
        tEntry.2.flatMap fun nEntry =>
          match nEntry.2 with
          | none => []
          | some body =>
            body.children.map fun childId =>
              (tEntry.1 ++ ":" ++ childId, tEntry.1 ++ ":" ++ nEntry.1)

/-- One step of building the `childToParent` map:
`existing = map.get(child) ?? []; existing.push(parent); map.set(child, existing)`. -/
def addParent (m : String → List String) (e : String × String) : String → List String :=
  fun k => if k = e.1 then m e.1 ++ [e.2] else m k

def childToParent (files : List (Option ResearchFile)) : String → List String :=
  (researchEdges files).foldl addParent (fun _ => [])

/-- The whole extractor: pass 1 nodes with prerequisites filled in from the
inverted adjacency (`node.prerequisites = childToParent.get(node.nodeId) ?? []`). -/
def extractResearchTrees (files : List (Option ResearchFile)) : List ParsedResearchNode :=
  (researchPass1 files).map fun n => { n with prerequisites := childToParent files n.nodeId }

theorem foldl_addParent (edges : List (String × String)) (m : String → List String)
    (k : String) :
    (edges.foldl addParent m) k =
      m k ++ edges.filterMap (fun e => if e.1 = k then some e.2 else none) := by
  induction edges generalizing m with
  | nil => simp
  | cons e rest ih =>
      rcases e with ⟨c, p⟩
      rw [List.foldl_cons, ih, List.filterMap_cons]
      by_cases hk : c = k
      · subst hk
        simp [addParent]
      · have hk' : ¬ k = c := fun h => hk h.symm
        simp [addParent, hk, hk']

theorem mem_childToParent (files : List (Option ResearchFile)) (k p : String) :
    p ∈ childToParent files k ↔ (k, p) ∈ researchEdges files := by
  rw [childToParent, foldl_addParent]
  simp only [List.nil_append, List.mem_filterMap]
  constructor
  · rintro ⟨⟨c, q⟩, hmem, hf⟩
    by_cases hc : c = k
    · rw [if_pos hc] at hf
      obtain rfl : q = p := by simpa using hf
      exact hc ▸ hmem
    · rw [if_neg hc] at hf
      cases hf
  · intro hmem
    exact ⟨(k, p), hmem, by simp⟩

theorem mem_researchEdges (files : List (Option ResearchFile)) (c p : String) :
    (c, p) ∈ researchEdges files ↔
      ∃ f t tns a body childId,
        some f ∈ files ∧ (t, tns) ∈ f.researchTree ∧ (a, some body) ∈ tns ∧
        childId ∈ body.children ∧ c = t ++ ":" ++ childId ∧ p = t ++ ":" ++ a := by
  constructor
  · intro hmem
    rw [researchEdges, List.mem_flatMap] at hmem
    obtain ⟨fileData, hfile, hmem⟩ := hmem
    rcases fileData with _ | f
    · simp at hmem
    rw [List.mem_flatMap] at hmem
    obtain ⟨⟨t, tns⟩, htree, hmem⟩ := hmem
    rw [List.mem_flatMap] at hmem
    obtain ⟨⟨a, body?⟩, hnode, hmem⟩ := hmem
    rcases body? with _ | body
    · simp at hmem
    simp only [List.mem_map, Prod.mk.injEq] at hmem
    obtain ⟨childId, hchild, hc, hp⟩ := hmem
    exact ⟨f, t, tns, a, body, childId, hfile, htree, hnode, hchild, hc.symm, hp.symm⟩
  · rintro ⟨f, t, tns, a, body, childId, hfile, htree, hnode, hchild, rfl, rfl⟩
    rw [researchEdges, List.mem_flatMap]
    refine ⟨some f, hfile, ?_⟩
    rw [List.mem_flatMap]
    refine ⟨(t, tns), htree, ?_⟩
    rw [List.mem_flatMap]
    refine ⟨(a, some body), hnode, ?_⟩
    show _ ∈ body.children.map _
    rw [List.mem_map]
    exact ⟨childId, hchild, rfl⟩

/-- C1 -- Prerequisites of extracted research nodes are exactly the inversion
of the authored `children` adjacency over all contributing files: a node's
prerequisites list contains `t:parent` precisely when some file's tree `t`
declares `parent` (with an object body) listing the node's own id as a child
-- so prerequisites are never read from an authored field, a parent that
lists child `b` contributes `t:parent` to every extracted node identified by
`t:b`, and a node listed as a child by several parents accumulates them all. -/
theorem research_prerequisites_inverted (files : List (Option ResearchFile)) :
    (∀ n, n ∈ extractResearchTrees files → ∀ p,
        p ∈ n.prerequisites ↔
          ∃ f t tns a body childId,
            some f ∈ files ∧ (t, tns) ∈ f.researchTree ∧ (a, some body) ∈ tns ∧
            childId ∈ body.children ∧ n.nodeId = t ++ ":" ++ childId ∧
            p = t ++ ":" ++ a) ∧
    (∀ f t tns a body b n,
        some f ∈ files → (t, tns) ∈ f.researchTree → (a, some body) ∈ tns →
        b ∈ body.children → n ∈ extractResearchTrees files →
        n.nodeId = t ++ ":" ++ b → (t ++ ":" ++ a) ∈ n.prerequisites) := by
  have key : ∀ n, n ∈ extractResearchTrees files → ∀ p,
      p ∈ n.prerequisites ↔
        ∃ f t tns a body childId,
          some f ∈ files ∧ (t, tns) ∈ f.researchTree ∧ (a, some body) ∈ tns ∧
          childId ∈ body.children ∧ n.nodeId = t ++ ":" ++ childId ∧
          p = t ++ ":" ++ a := by
    intro n hn p
    rw [extractResearchTrees, List.mem_map] at hn
    obtain ⟨n₀, _, rfl⟩ := hn
    show p ∈ childToParent files n₀.nodeId ↔ _
    rw [mem_childToParent, mem_researchEdges]
  refine ⟨key, ?_⟩
  intro f t tns a body b n hfile htree hnode hchild hn hid
  exact (key n hn _).mpr ⟨f, t, tns, a, body, b, hfile, htree, hnode, hchild, hid, rfl⟩

def researchFileC1 : Option ResearchFile :=
  some { researchTree :=
           [("t1", [("a", some { price := [("researchnote", 1)], children := ["b"], unlocks := [] }),
                    ("b", some { price := [], children := [], unlocks := ["item1"] }),
                    ("c", some { price := [], children := ["b"], unlocks := [] })])]
         strings := { trees := [], research := [] } }

/-- Witness for C1: in a file whose tree `t1` has parents `a` and `c` both
listing `b` as a child, the extracted node `t1:b` carries prerequisite `t1:a`
(and, by the accumulation direction, also `t1:c`). -/
theorem research_prerequisites_inverted_witness :
    ("t1" ++ ":" ++ "a") ∈
      ({ tree := "t1", nodeId := "t1:b", name := "b", description := "",
         cost := [], prerequisites := ["t1:a", "t1:c"], unlocks := ["item1"] } :
        ParsedResearchNode).prerequisites ∧
    ({ tree := "t1", nodeId := "t1:b", name := "b", description := "",
       cost := [], prerequisites := ["t1:a", "t1:c"], unlocks := ["item1"] } :
      ParsedResearchNode) ∈ extractResearchTrees [researchFileC1] :=
  ⟨(research_prerequisites_inverted [researchFileC1]).2
      (match researchFileC1 with | some f => f | none => { researchTree := [], strings := ⟨[], []⟩ })
      "t1" [("a", some { price := [("researchnote", 1)], children := ["b"], unlocks := [] }),
            ("b", some { price := [], children := [], unlocks := ["item1"] }),
            ("c", some { price := [], children := ["b"], unlocks := [] })]
      "a" { price := [("researchnote", 1)], children := ["b"], unlocks := [] } "b" _
      (by decide) (by decide) (by decide) (by decide) (by decide) (by decide),
    by decide⟩

/-! ## Markdown signature parsing (extract-lua-docs.ts lines 89-135)

`parseSignatureLine` and `parseParameters` are regex-driven.  The regexes are
translated into deterministic scanners; every construct used
(`#{3,4}`, `\s+`, `` `([^`]+)` ``, `(\w+)\.`, `([^)]*)\)`, `(\[?)`, `\s*\]?`)
is followed by a character class disjoint from it, so greedy matching needs no
backtracking and the translation is exact.  `\s` is modelled by the ASCII
whitespace characters it matches; `\w` is `[A-Za-z0-9_]`. -/

def jsIsSpace (c : Char) : Bool :=
  c = ' ' || c = '\t' || c = '\n' || c = '\r' || c = '\x0b' || c = '\x0c'

def isWordChar (c : Char) : Bool := c.isAlphanum || c = '_'

structure SigParts where
  returnType : List Char
  tableName : List Char
  functionName : List Char
  rawParams : List Char
deriving DecidableEq, Repr

/-- The common tail `(\w+)\.(\w+)\(([^)]*)\)\s*$` of both heading regexes. -/
def parseDotCall (l : List Char) (rt : List Char) : Option SigParts :=
  let tbl := l.takeWhile isWordChar
  let l1 := l.dropWhile isWordChar
  if tbl.isEmpty then none else
  match l1 with
  | '.' :: l2 =>
    let fn := l2.takeWhile isWordChar
    let l3 := l2.dropWhile isWordChar
    if fn.isEmpty then none else
    match l3 with
    | '(' :: l4 =>
      let raw := l4.takeWhile (fun c => c ≠ ')')
      let l5 := l4.dropWhile (fun c => c ≠ ')')
      match l5 with
      | ')' :: l6 => if l6.all jsIsSpace then some ⟨rt, tbl, fn, raw⟩ else none
      | _ => none
    | _ => none
  | _ => none

/-- First regex of `parseSignatureLine`:
`^#{3,4}\s+`([^`]+)`\s+(\w+)\.(\w+)\(([^)]*)\)\s*$`. -/
def parseSigWithReturn (l : List Char) : Option SigParts :=
  let hashes := l.takeWhile (fun c => c = '#')
  let l1 := l.dropWhile (fun c => c = '#')
  if hashes.length = 3 ∨ hashes.length = 4 then
    let sp := l1.takeWhile jsIsSpace
    let l2 := l1.dropWhile jsIsSpace
    if sp.isEmpty then none else
    match l2 with
    | '`' :: l3 =>
      let rt := l3.takeWhile (fun c => c ≠ '`')
      let l4 := l3.dropWhile (fun c => c ≠ '`')
      if rt.isEmpty then none else
      match l4 with
      | '`' :: l5 =>
        let sp2 := l5.takeWhile jsIsSpace
        let l6 := l5.dropWhile jsIsSpace
        if sp2.isEmpty then none else parseDotCall l6 rt
      | _ => none
    | _ => none
  else none

/-- Second regex (no declared return type):
`^#{3,4}\s+(\w+)\.(\w+)\(([^)]*)\)\s*$`, with return type defaulted to
`"void"`. -/
def parseSigNoReturn (l : List Char) : Option SigParts :=
  let hashes := l.takeWhile (fun c => c = '#')
  let l1 := l.dropWhile (fun c => c = '#')
  if hashes.length = 3 ∨ hashes.length = 4 then
    let sp := l1.takeWhile jsIsSpace
    let l2 := l1.dropWhile jsIsSpace
    if sp.isEmpty then none else parseDotCall l2 ("void".toList)
  else none

def parseSignatureLine (l : List Char) : Option SigParts :=
  match parseSigWithReturn l with
  | some r => some r
  | none => parseSigNoReturn l

structure ParamTok where
  name : List Char
  type : List Char
  optional : Bool
deriving DecidableEq, Repr

/-- One attempted match of `(\[?)\s*`([^`]+)`\s+(\w+)\s*\]?` at the start of
`l`; returns the parameter and the matched length.  (When `l` starts with `[`
but the remainder fails, the regex's empty-`\[?` alternative also fails, since
it would need a backtick where the `[` sits.) -/
def tryParamAt (l : List Char) : Option (ParamTok × Nat) :=
  let (opt, l1) :=
    match l with
    | '[' :: rest => (true, rest)
    | _ => (false, l)
  let l2 := l1.dropWhile jsIsSpace
  match l2 with
  | '`' :: l3 =>
    let ty := l3.takeWhile (fun c => c ≠ '`')
    let l4 := l3.dropWhile (fun c => c ≠ '`')
    if ty.isEmpty then none else
    match l4 with
    | '`' :: l5 =>
      let sp := l5.takeWhile jsIsSpace
      let l6 := l5.dropWhile jsIsSpace
      if sp.isEmpty then none else
      let nm := l6.takeWhile isWordChar
      let l7 := l6.dropWhile isWordChar
      if nm.isEmpty then none else
      let l8 := l7.dropWhile jsIsSpace
      let l9 := match l8 with
        | ']' :: rest => rest
        | _ => l8
      some (⟨nm, ty, opt⟩, l.length - l9.length)
    | _ => none
  | _ => none

/-- Global regex scan: try a match at each position, emitting matches and
resuming after each one (every match is nonempty, so `lastIndex` always
advances).  The fuel is the input length, an upper bound on the number of
steps since every step consumes at least one character. -/
def scanParamsGo : List Char → Nat → List ParamTok
  | _, 0 => []
  | l, Nat.succ fuel =>
    match tryParamAt l with
    | some (p, len) => p :: scanParamsGo (l.drop (max len 1)) fuel
    | none =>
      match l with
      | [] => []
      | _ :: rest => scanParamsGo rest fuel

def jsTrim (l : List Char) : List Char :=
  ((l.dropWhile jsIsSpace).reverse.dropWhile jsIsSpace).reverse

def parseParameters (raw : List Char) : List ParamTok :=
  if (jsTrim raw).isEmpty then [] else scanParamsGo raw raw.length

/-- C4 counterexample -- On the heading exactly as the claim writes it, with
parameter types not backtick-quoted, the signature line parses (the raw
parameter text is captured by `([^)]*)`) but `parseParameters` yields no
parameters at all, because the per-parameter regex requires a backtick-quoted
type; so the claim's "exactly two parameters" fails. -/
theorem heading_literal_types_yield_no_params :
    parseSignatureLine ("#### `EntityId` world.spawnItem([String itemName], Vec2F position)".toList) =
      some ⟨"EntityId".toList, "world".toList, "spawnItem".toList,
            "[String itemName], Vec2F position".toList⟩ ∧
    parseParameters ("[String itemName], Vec2F position".toList) = [] := by
  constructor <;> rfl

/-- C4 (amended) -- With the parameter types backtick-quoted as §4.2's
parameter grammar requires, the heading yields table `world`, function
`spawnItem`, return `EntityId`, and exactly two parameters: `itemName`
(type `String`, optional) and `position` (type `Vec2F`, required); at heading
depth 3 as well as 4. -/
theorem heading_backticked_types_parse :
    parseSignatureLine
        ("#### `EntityId` world.spawnItem([`String` itemName], `Vec2F` position)".toList) =
      some ⟨"EntityId".toList, "world".toList, "spawnItem".toList,
            "[`String` itemName], `Vec2F` position".toList⟩ ∧
    parseSignatureLine
        ("### `EntityId` world.spawnItem([`String` itemName], `Vec2F` position)".toList) =
      some ⟨"EntityId".toList, "world".toList, "spawnItem".toList,
            "[`String` itemName], `Vec2F` position".toList⟩ ∧
    parseParameters ("[`String` itemName], `Vec2F` position".toList) =
      [⟨"itemName".toList, "String".toList, true⟩,
       ⟨"position".toList, "Vec2F".toList, false⟩] := by
  refine ⟨?_, ?_, ?_⟩ <;> rfl

/-! ## Overload merging (extract-lua-docs.ts lines 197-201 and 283-301)

`parseMarkdownFile` flags an entry as an overload iff the immediately
preceding parsed entry has the same table and function name;
`insertLuaData` then folds entries into a name-keyed map, merging flagged
overloads into the existing entry. -/

structure LuaParam where
  name : String
  type : String
  optional : Bool
deriving DecidableEq, Repr

structure LuaFunctionEntry where
  tableName : String
  functionName : String
  returnType : String
  parameters : List LuaParam
  signature : String
  description : String
  isOverload : Bool
  sourceFile : String
  lineNumber : Nat
deriving DecidableEq, Repr

/-- The `isOverload` computation (lines 198-200): true iff the previously
pushed entry shares table and function name. -/
def markOverloadsGo : Option (String × String) → List LuaFunctionEntry → List LuaFunctionEntry
  | _, [] => []
  | prev, f :: rest =>
    let flag :=
      match prev with
      | some (t, n) => t == f.tableName && n == f.functionName
      | none => false
    { f with isOverload := flag } :: markOverloadsGo (some (f.tableName, f.functionName)) rest

def markOverloads (fns : List LuaFunctionEntry) : List LuaFunctionEntry :=
  markOverloadsGo none fns

/-- `Map.set` semantics: replace in place when the key exists, append
otherwise. -/
def setAssoc (m : List (String × LuaFunctionEntry)) (k : String) (v : LuaFunctionEntry) :
    List (String × LuaFunctionEntry) :=
  match m with
  | [] => [(k, v)]
  | (k', v') :: rest => if k' = k then (k, v) :: rest else (k', v') :: setAssoc rest k v

/-- The merge of an overload into the existing canonical entry
(lines 288-297): signatures newline-joined, a nonempty overload description
appended under the `**Overload:**` label, and parameters/return type replaced
exactly when the overload has strictly more parameters. -/
def overloadMerge (ex fn : LuaFunctionEntry) : LuaFunctionEntry :=
  { ex with
    signature := ex.signature ++ "\n" ++ fn.signature
    description :=
      if fn.description ≠ "" then ex.description ++ "\n\n**Overload:**\n" ++ fn.description
      else ex.description
    parameters :=
      if fn.parameters.length > ex.parameters.length then fn.parameters else ex.parameters
    returnType :=
      if fn.parameters.length > ex.parameters.length then fn.returnType else ex.returnType }

/-- One iteration of the merge loop (lines 285-301). -/
def mergeStep (acc : List (String × LuaFunctionEntry)) (fn : LuaFunctionEntry) :
    List (String × LuaFunctionEntry) :=
  if fn.isOverload then
    match List.lookup fn.functionName acc with
    | some ex => setAssoc acc fn.functionName (overloadMerge ex fn)
    | none => setAssoc acc fn.functionName fn
  else setAssoc acc fn.functionName fn

def mergeFunctions (fns : List LuaFunctionEntry) : List (String × LuaFunctionEntry) :=
  fns.foldl mergeStep []

/-- Specification-side description of the merged record for a pair of
consecutive same-named entries. -/
def specMergedEntry (f1 f2 : LuaFunctionEntry) : LuaFunctionEntry :=
  { f1 with
    isOverload := false
    signature := f1.signature ++ "\n" ++ f2.signature
    description :=
      if f2.description ≠ "" then f1.description ++ "\n\n**Overload:**\n" ++ f2.description
      else f1.description
    parameters :=
      if f2.parameters.length > f1.parameters.length then f2.parameters else f1.parameters
    returnType :=
      if f2.parameters.length > f1.parameters.length then f2.returnType else f1.returnType }

/-- C2 -- Two consecutive parsed entries with the same table and function
name merge into a single stored record: the signatures are newline-joined,
the (nonempty) later description is appended under an overload label, and the
later entry's parameter list and return type replace the canonical ones
exactly when it has strictly more parameters; in particular a 1-parameter
entry followed by a 3-parameter one yields canonical parameter count 3. -/
theorem overload_pair_merges (f1 f2 : LuaFunctionEntry)
    (ht : f1.tableName = f2.tableName) (hn : f1.functionName = f2.functionName) :
    mergeFunctions (markOverloads [f1, f2]) = [(f1.functionName, specMergedEntry f1 f2)] ∧
    (f1.parameters.length = 1 → f2.parameters.length = 3 →
      (specMergedEntry f1 f2).parameters = f2.parameters ∧
      (specMergedEntry f1 f2).parameters.length = 3) := by
  constructor
  · have hflag : (f1.tableName == f2.tableName && f1.functionName == f2.functionName) = true := by
      simp [ht, hn]
    have hlook : (f2.functionName == f1.functionName) = true := by simp [hn]
    simp only [mergeFunctions, markOverloads, markOverloadsGo, List.foldl_cons, List.foldl_nil,
      mergeStep, hflag, setAssoc, List.lookup, hlook, if_true, Bool.false_eq_true, if_false,
      overloadMerge, specMergedEntry, hn]
    simp [ht, hn]
  · intro h1 h3
    constructor
    · simp [specMergedEntry, h1, h3]
    · simp [specMergedEntry, h1, h3]

def luaEntryOne : LuaFunctionEntry :=
  { tableName := "world", functionName := "spawnItem", returnType := "EntityId"
    parameters := [{ name := "itemName", type := "String", optional := false }]
    signature := "world.spawnItem(String itemName)"
    description := "Spawns an item."
    isOverload := false, sourceFile := "world.md", lineNumber := 10 }

def luaEntryTwo : LuaFunctionEntry :=
  { tableName := "world", functionName := "spawnItem", returnType := "EntityId"
    parameters := [{ name := "itemName", type := "String", optional := false },
                   { name := "position", type := "Vec2F", optional := false },
                   { name := "count", type := "Int", optional := true }]
    signature := "world.spawnItem(String itemName, Vec2F position, [Int count])"
    description := "Spawns an item at a position."
    isOverload := false, sourceFile := "world.md", lineNumber := 14 }

/-- Witness for C2 at a concrete 1-parameter entry followed by a 3-parameter
one. -/
theorem overload_pair_merges_witness :
    mergeFunctions (markOverloads [luaEntryOne, luaEntryTwo]) =
      [("spawnItem", specMergedEntry luaEntryOne luaEntryTwo)] ∧
    (specMergedEntry luaEntryOne luaEntryTwo).parameters.length = 3 :=
  ⟨(overload_pair_merges luaEntryOne luaEntryTwo rfl rfl).1,
   ((overload_pair_merges luaEntryOne luaEntryTwo rfl rfl).2 rfl rfl).2⟩

/-! ## Heuristic field extraction (extract-openstarbound.ts lines 69-287)

Six regex-driven pattern families scan one C++ source file.  Each regex is
translated into a deterministic matcher; in every alternation used, no
alternative is a prefix of another, and every repeated class is followed by a
disjoint required character, except for the `[^)]*` of the converter pattern,
whose greedy backtracking is modelled by an explicit rightmost-first search.
Match captures become `String`s; window extraction stays character-level. -/

structure ExtractedField where
  fieldName : String
  type : String
  defaultValue : Option String
  optional : Bool
  sourceFile : String
  lineNumber : Nat
  context : String
deriving DecidableEq, Repr

/-- `GETTER_TYPE_MAP` (lines 69-78) with the `?? cppType` fallback. -/
def getterType (cppType : String) : String :=
  (List.lookup cppType
    [("String", "String"), ("Bool", "Bool"), ("Float", "Float"), ("Double", "Float"),
     ("Int", "Int"), ("UInt", "UInt"), ("Array", "Array"), ("Object", "Object")]).getD cppType

/-- `CONVERTER_TYPE_MAP` (lines 80-92) in insertion order. -/
def converterTypeMap : List (String × String) :=
  [("jsonToVec2F", "Vec2F"), ("jsonToVec2I", "Vec2I"), ("jsonToVec2U", "Vec2U"),
   ("jsonToVec3B", "Vec3B"), ("jsonToVec4B", "Vec4B"), ("jsonToColor", "Color"),
   ("jsonToRectF", "RectF"), ("jsonToPolyF", "PolyF"), ("jsonToStringList", "String[]"),
   ("jsonToStringSet", "StringSet"), ("jsonToWeightedPool", "WeightedPool")]

/-- Match a literal character sequence at the start, returning the remainder. -/
def matchLit : List Char → List Char → Option (List Char)
  | [], l => some l
  | c :: cs, x :: xs => if x = c then matchLit cs xs else none
  | _ :: _, [] => none

/-- First-match alternation (no alternative used is a prefix of another, so
this equals regex alternation). -/
def matchAlt (alts : List (List Char)) (l : List Char) : Option (List Char × List Char) :=
  match alts with
  | [] => none
  | a :: rest =>
    match matchLit a l with
    | some r => some (a, r)
    | none => matchAlt rest l

/-- `"([^"]+)"`: a double-quoted nonempty capture. -/
def matchQuoted (l : List Char) : Option (List Char × List Char) :=
  match l with
  | '"' :: l1 =>
    let nm := l1.takeWhile (fun c => c ≠ '"')
    let l2 := l1.dropWhile (fun c => c ≠ '"')
    if nm.isEmpty then none else
    match l2 with
    | '"' :: l3 => some (nm, l3)
    | _ => none
  | _ => none

/-- `(?:\s*,\s*([^)]*))?\)`: an optional default-argument group followed by
the closing parenthesis.  When no comma follows (after optional whitespace),
the group is skipped and `\)` must match immediately after the quote. -/
def matchDefaultTail (l : List Char) : Option (Option (List Char) × List Char) :=
  match l.dropWhile jsIsSpace with
  | ',' :: l1 =>
    let l2 := l1.dropWhile jsIsSpace
    let dv := l2.takeWhile (fun c => c ≠ ')')
    let l3 := l2.dropWhile (fun c => c ≠ ')')
    match l3 with
    | ')' :: l4 => some (some dv, l4)
    | _ => none
  | _ =>
    match l with
    | ')' :: l1 => some (none, l1)
    | _ => none

def getterKinds : List (List Char) :=
  ["String".toList, "Bool".toList, "Float".toList, "Double".toList,
   "Int".toList, "UInt".toList, "Array".toList, "Object".toList]

def optKinds : List (List Char) :=
  ["String".toList, "Float".toList, "Int".toList, "UInt".toList,
   "Bool".toList, "Array".toList, "Object".toList]

def toKinds : List (List Char) :=
  ["Float".toList, "Int".toList, "Bool".toList, "String".toList,
   "UInt".toList, "Array".toList, "Object".toList]

/-- Pattern 1 matcher:
`\.get(String|Bool|Float|Double|Int|UInt|Array|Object)\s*\(\s*"([^"]+)"(?:\s*,\s*([^)]*))?\)`. -/
def tryTypedGetter (l : List Char) :
    Option ((List Char × List Char × Option (List Char)) × List Char) :=
  match matchLit (".get".toList) l with
  | none => none
  | some l1 =>
    match matchAlt getterKinds l1 with
    | none => none
    | some (kind, l2) =>
      match l2.dropWhile jsIsSpace with
      | '(' :: l4 =>
        match matchQuoted (l4.dropWhile jsIsSpace) with
        | none => none
        | some (nm, l6) =>
          match matchDefaultTail l6 with
          | none => none
          | some (dv, l7) => some ((kind, nm, dv), l7)
      | _ => none

/-- Pattern 2 matcher:
`\.opt(String|Float|Int|UInt|Bool|Array|Object)\s*\(\s*"([^"]+)"\s*\)`. -/
def tryOptGetter (l : List Char) : Option ((List Char × List Char) × List Char) :=
  match matchLit (".opt".toList) l with
  | none => none
  | some l1 =>
    match matchAlt optKinds l1 with
    | none => none
    | some (kind, l2) =>
      match l2.dropWhile jsIsSpace with
      | '(' :: l4 =>
        match matchQuoted (l4.dropWhile jsIsSpace) with
        | none => none
        | some (nm, l6) =>
          match l6.dropWhile jsIsSpace with
          | ')' :: l7 => some ((kind, nm), l7)
          | _ => none
      | _ => none

/-- Pattern 3 matcher: `\.opt\s*\(\s*"([^"]+)"\s*\)`. -/
def tryGenericOpt (l : List Char) : Option (List Char × List Char) :=
  match matchLit (".opt".toList) l with
  | none => none
  | some l1 =>
    match l1.dropWhile jsIsSpace with
    | '(' :: l2 =>
      match matchQuoted (l2.dropWhile jsIsSpace) with
      | none => none
      | some (nm, l3) =>
        match l3.dropWhile jsIsSpace with
        | ')' :: l4 => some (nm, l4)
        | _ => none
    | _ => none

/-- Pattern 4 matcher tail `\.get\w*\s*\(\s*"([^"]+)"`. -/
def convTail (l : List Char) : Option (List Char × List Char) :=
  match matchLit (".get".toList) l with
  | none => none
  | some l1 =>
    match (l1.dropWhile isWordChar).dropWhile jsIsSpace with
    | '(' :: l4 => matchQuoted (l4.dropWhile jsIsSpace)
    | _ => none

/-- Greedy `[^)]*` backtracking: try the tail at offsets `j, j-1, …, 0`
(rightmost first, as a greedy engine would). -/
def convSearchGo (region : List Char) : Nat → Option (List Char × List Char)
  | 0 => convTail region
  | Nat.succ j =>
    match convTail (region.drop (Nat.succ j)) with
    | some r => some r
    | none => convSearchGo region j

/-- Pattern 4 matcher:
`(jsonTo(?:…))\s*\([^)]*\.get\w*\s*\(\s*"([^"]+)"`, yielding the converter's
mapped type (the alternation only matches names in `CONVERTER_TYPE_MAP`, so
the `?? "Json"` fallback never fires) and the captured field name. -/
def tryConverter (l : List Char) : Option ((String × List Char) × List Char) :=
  match matchAlt (converterTypeMap.map (fun e => e.1.toList)) l with
  | none => none
  | some (convName, l1) =>
    match l1.dropWhile jsIsSpace with
    | '(' :: l3 =>
      match convSearchGo l3 (l3.takeWhile (fun c => c ≠ ')')).length with
      | none => none
      | some (nm, l4) =>
        some (((List.lookup convName.asString converterTypeMap).getD "Json", nm), l4)
    | _ => none

/-- Pattern 5 matcher: `\.get\s*\(\s*"([^"]+)"(?:\s*,\s*([^)]*))?\)`. -/
def tryGenericGet (l : List Char) : Option ((List Char × Option (List Char)) × List Char) :=
  match matchLit (".get".toList) l with
  | none => none
  | some l1 =>
    match l1.dropWhile jsIsSpace with
    | '(' :: l2 =>
      match matchQuoted (l2.dropWhile jsIsSpace) with
      | none => none
      | some (nm, l3) =>
        match matchDefaultTail l3 with
        | none => none
        | some (dv, l4) => some ((nm, dv), l4)
    | _ => none

/-- Pattern 6 matcher: `\.contains\s*\(\s*"([^"]+)"\s*\)`. -/
def tryContains (l : List Char) : Option (List Char × List Char) :=
  match matchLit (".contains".toList) l with
  | none => none
  | some l1 =>
    match l1.dropWhile jsIsSpace with
    | '(' :: l2 =>
      match matchQuoted (l2.dropWhile jsIsSpace) with
      | none => none
      | some (nm, l3) =>
        match l3.dropWhile jsIsSpace with
        | ')' :: l4 => some (nm, l4)
        | _ => none
    | _ => none

/-- Global scan of a pattern over the content (`while (m = re.exec(content))`):
at each position try a match; on success record `(index, captures,
matchLength)` and resume after the match.  All patterns match at least one
character, so the fuel `content.length` bounds the number of steps. -/
def scanAll {α : Type} (tryM : List Char → Option (α × List Char)) :
    List Char → Nat → Nat → List (Nat × α × Nat)
  | _, _, 0 => []
  | l, idx, Nat.succ fuel =>
    match tryM l with
    | some (a, rest) =>
      let len := l.length - rest.length
      (idx, a, len) :: scanAll tryM (l.drop (max len 1)) (idx + max len 1) fuel
    | none =>
      match l with
      | [] => []
      | _ :: r => scanAll tryM r (idx + 1) fuel

/-- `getLineNumber` (lines 133-135): 1-based line of a match index. -/
def getLineNumber (content : List Char) (idx : Nat) : Nat :=
  ((content.take idx).count '\n') + 1

/-- `getContext` (lines 137-142): the match line with one line of context,
trimmed and joined with `" | "`. -/
def getContext (content : List Char) (idx : Nat) : String :=
  let lines := content.splitOn '\n'
  let lineNum := getLineNumber content idx
  let e := min lines.length (lineNum + 1)
  String.intercalate " | " (((lines.take e).drop (lineNum - 2)).map (fun l => (jsTrim l).asString))

/-- `addField` (lines 125-131): push unless the `name:type` key was seen. -/
def addField (st : List String × List ExtractedField) (f : ExtractedField) :
    List String × List ExtractedField :=
  let key := f.fieldName ++ ":" ++ f.type
  if key ∈ st.1 then st else (key :: st.1, st.2 ++ [f])

/-- JS `!!defaultValue`: a captured default is truthy iff nonempty. -/
def rawTruthy : Option (List Char) → Bool
  | none => false
  | some d => !d.isEmpty

/-- JS substring window `content.substring(a, b)` with clamping. -/
def subWindow (content : List Char) (a b : Nat) : List Char :=
  (content.take b).drop a

/-- The first converter helper whose name occurs in the window (lines 182-187
and 229-234): iteration in `CONVERTER_TYPE_MAP` order with `break`. -/
def containsSub (needle : List Char) : List Char → Bool
  | [] => (matchLit needle []).isSome
  | c :: rest => (matchLit needle (c :: rest)).isSome || containsSub needle rest

def windowConvType (window : List Char) : Option String :=
  (converterTypeMap.find? (fun e => containsSub e.1.toList window)).map (fun e => e.2)

/-- The typed-getter head test of pattern 5's skip check:
`/\.get(String|…)\s*\(/.test(...)`. -/
def typedGetterHeadAt (l : List Char) : Bool :=
  match matchLit (".get".toList) l with
  | none => false
  | some l1 =>
    match matchAlt getterKinds l1 with
    | none => false
    | some (_, l2) =>
      match l2.dropWhile jsIsSpace with
      | '(' :: _ => true
      | _ => false

def existsTypedGetterHead : List Char → Bool
  | [] => false
  | c :: rest => typedGetterHeadAt (c :: rest) || existsTypedGetterHead rest

/-- The trailing-coercion test (lines 237-241):
`^\s*\)\s*\.\s*to(Float|Int|Bool|String|UInt|Array|Object)\s*\(` on the 30
characters after the match. -/
def matchToType (l : List Char) : Option String :=
  match l.dropWhile jsIsSpace with
  | ')' :: l2 =>
    match l2.dropWhile jsIsSpace with
    | '.' :: l4 =>
      match matchLit ("to".toList) (l4.dropWhile jsIsSpace) with
      | none => none
      | some l6 =>
        match matchAlt toKinds l6 with
        | none => none
        | some (kind, l7) =>
          match l7.dropWhile jsIsSpace with
          | '(' :: _ => some (getterType kind.asString)
          | _ => none
    | _ => none
  | _ => none

/-- `/^\d+\.\d+f?$/` on a trimmed default literal. -/
def isFloatLit (dv : List Char) : Bool :=
  let d1 := dv.takeWhile Char.isDigit
  let r1 := dv.dropWhile Char.isDigit
  if d1.isEmpty then false else
  match r1 with
  | '.' :: r2 =>
    let d2 := r2.takeWhile Char.isDigit
    let r3 := r2.dropWhile Char.isDigit
    if d2.isEmpty then false else r3 = [] || r3 = ['f']
  | _ => false

/-- Literal-shape type inference from a trimmed default (lines 245-252). -/
def defaultShapeType (dv : List Char) : Option String :=
  if dv = "true".toList ∨ dv = "false".toList then some "Bool"
  else if dv = "JsonArray()".toList ∨ dv = "\x7b\x7d".toList then some "Array"
  else if dv = "JsonObject()".toList ∨ dv = "JsonObject\x7b\x7d".toList then some "Object"
  else if isFloatLit dv then some "Float"
  else if !dv.isEmpty && dv.all Char.isDigit then some "Int"
  else if dv.head? = some '"' then some "String"
  else none

/-- Pattern 1 fold step (lines 146-158). -/
def typedGetterStep (fileName : String) (content : List Char)
    (st : List String × List ExtractedField)
    (m : Nat × (List Char × List Char × Option (List Char)) × Nat) :
    List String × List ExtractedField :=
  addField st
    { fieldName := m.2.1.2.1.asString
      type := getterType m.2.1.1.asString
      defaultValue := m.2.1.2.2.map (fun d => (jsTrim d).asString)
      optional := rawTruthy m.2.1.2.2
      sourceFile := fileName
      lineNumber := getLineNumber content m.1
      context := getContext content m.1 }

/-- Pattern 2 fold step (lines 161-173). -/
def optGetterStep (fileName : String) (content : List Char)
    (st : List String × List ExtractedField)
    (m : Nat × (List Char × List Char) × Nat) : List String × List ExtractedField :=
  addField st
    { fieldName := m.2.1.2.asString
      type := getterType m.2.1.1.asString
      defaultValue := none
      optional := true
      sourceFile := fileName
      lineNumber := getLineNumber content m.1
      context := getContext content m.1 }

/-- Pattern 3 fold step (lines 176-197): window scan of ±100 characters for a
converter name, defaulting to the opaque `Json` type. -/
def genericOptStep (fileName : String) (content : List Char)
    (st : List String × List ExtractedField)
    (m : Nat × List Char × Nat) : List String × List ExtractedField :=
  addField st
    { fieldName := m.2.1.asString
      type := (windowConvType (subWindow content (m.1 - 100) (m.1 + m.2.2 + 100))).getD "Json"
      defaultValue := none
      optional := true
      sourceFile := fileName
      lineNumber := getLineNumber content m.1
      context := getContext content m.1 }

/-- Pattern 4 fold step (lines 200-213). -/
def converterStep (fileName : String) (content : List Char)
    (st : List String × List ExtractedField)
    (m : Nat × (String × List Char) × Nat) : List String × List ExtractedField :=
  addField st
    { fieldName := m.2.1.2.asString
      type := m.2.1.1
      defaultValue := none
      optional := false
      sourceFile := fileName
      lineNumber := getLineNumber content m.1
      context := getContext content m.1 }

/-- Pattern 5 fold step (lines 216-267): skip matches that sit on a typed
getter, infer the type from (in order) a converter window, a trailing
coercion, then the default literal's shape; then the explicit `seen` insert
before `addField` (whose own `name:type` check therefore always fires,
leaving the field list unchanged by this family). -/
def genericGetStep (fileName : String) (content : List Char)
    (st : List String × List ExtractedField)
    (m : Nat × (List Char × Option (List Char)) × Nat) : List String × List ExtractedField :=
  if existsTypedGetterHead (subWindow content (m.1 - 10) (m.1 + m.2.2)) then st
  else
    let ty0 := (windowConvType (subWindow content (m.1 - 150) (m.1 + m.2.2 + 50))).getD "Json"
    let ty1 :=
      match matchToType (subWindow content (m.1 + m.2.2) (m.1 + m.2.2 + 30)) with
      | some t => t
      | none => ty0
    let ty2 :=
      if ty1 = "Json" ∧ rawTruthy m.2.1.2 then
        (defaultShapeType (jsTrim (m.2.1.2.getD []))).getD "Json"
      else ty1
    let key := m.2.1.1.asString ++ ":" ++ ty2
    if key ∈ st.1 then st
    else
      addField (key :: st.1, st.2)
        { fieldName := m.2.1.1.asString
          type := ty2
          defaultValue := m.2.1.2.map (fun d => (jsTrim d).asString)
          optional := rawTruthy m.2.1.2
          sourceFile := fileName
          lineNumber := getLineNumber content m.1
          context := getContext content m.1 }

/-- Pattern 6 fold step (lines 270-284): the guard checks the bare field name
against the seen set (whose keys are `name:type` strings). -/
def containsStep (fileName : String) (content : List Char)
    (st : List String × List ExtractedField)
    (m : Nat × List Char × Nat) : List String × List ExtractedField :=
  if m.2.1.asString ∈ st.1 then st
  else
    addField st
      { fieldName := m.2.1.asString
        type := "Json"
        defaultValue := none
        optional := true
        sourceFile := fileName
        lineNumber := getLineNumber content m.1
        context := getContext content m.1 }

/-- `extractFieldsFromFile` (lines 118-287): the six pattern families in
program order, sharing the `seen` set and the field list. -/
def extractFieldsFromFile (fileName : String) (content : List Char) : List ExtractedField :=
  let st1 := (scanAll tryTypedGetter content 0 content.length).foldl
    (typedGetterStep fileName content) ([], [])
  let st2 := (scanAll tryOptGetter content 0 content.length).foldl
    (optGetterStep fileName content) st1
  let st3 := (scanAll tryGenericOpt content 0 content.length).foldl
    (genericOptStep fileName content) st2
  let st4 := (scanAll tryConverter content 0 content.length).foldl
    (converterStep fileName content) st3
  let st5 := (scanAll tryGenericGet content 0 content.length).foldl
    (genericGetStep fileName content) st4
  let st6 := (scanAll tryContains content 0 content.length).foldl
    (containsStep fileName content) st5
  st6.2

def osbExampleContent : List Char :=
  "cfg.getFloat(\"price\", 1.0f)\ncfg.contains(\"price\")\n".toList

/-- C9 counterexample -- In a file where `price` is captured by pattern
family 1 as a `Float` (so the seen set holds the key `price:Float`), a later
`.contains("price")` presence check still adds a second, `Json`-typed
candidate, because the guard tests the bare name against a set of `name:type`
keys: the claim's "a name already captured by patterns 1 through 5 gains no
additional candidate from a presence check" is false. -/
theorem contains_adds_second_candidate :
    (extractFieldsFromFile "StarObjectDatabase.cpp" osbExampleContent).map
        (fun f => (f.fieldName, f.type, f.optional)) =
      [("price", "Float", true), ("price", "Json", true)] ∧
    ¬ ((extractFieldsFromFile "StarObjectDatabase.cpp" osbExampleContent).filter
        (fun f => f.fieldName == "price")).length ≤ 1 := by
  constructor
  · rfl
  · decide

def osbExampleContentB : List Char :=
  "cfg.opt(\"flags\") cfg.contains(\"flags\") cfg.contains(\"extra\")".toList

/-- C9 (amended) -- A presence check adds a candidate (typed as the opaque
`Json` type and marked optional) exactly when neither the bare field name nor
the key `name:Json` is already in the seen set; since earlier families
register `name:type` keys, a name previously captured at the opaque `Json`
type gains no additional candidate, while a name captured only at other
types does gain one.  Concretely: `flags`, captured by the generic-optional
family as `Json`, is not duplicated by its presence check, while the fresh
name `extra` is added. -/
theorem contains_candidate_iff :
    (∀ (fileName : String) (content : List Char) (st : List String × List ExtractedField)
        (m : Nat × List Char × Nat),
      (containsStep fileName content st m).2 =
        (if m.2.1.asString ∉ st.1 ∧ (m.2.1.asString ++ ":" ++ "Json") ∉ st.1 then
          st.2 ++ [{ fieldName := m.2.1.asString, type := "Json", defaultValue := none,
                     optional := true, sourceFile := fileName,
                     lineNumber := getLineNumber content m.1,
                     context := getContext content m.1 }]
         else st.2)) ∧
    (extractFieldsFromFile "StarObjectDatabase.cpp" osbExampleContentB).map
        (fun f => (f.fieldName, f.type, f.optional)) =
      [("flags", "Json", true), ("extra", "Json", true)] := by
  constructor
  · intro fileName content st m
    rw [containsStep]
    by_cases h1 : m.2.1.asString ∈ st.1
    · rw [if_pos h1, if_neg (by simp [h1])]
    · rw [if_neg h1]
      rw [addField]
      by_cases h2 : (m.2.1.asString ++ ":" ++ "Json") ∈ st.1
      · rw [if_pos h2, if_neg (by simp [h1, h2])]
      · rw [if_neg h2, if_pos ⟨h1, h2⟩]
  · rfl

/-! ## Asset-field storage (extract-openstarbound.ts lines 291-380; schema.ts)

`insertExtractedData` writes three tables relevant to the field rows:
`sources` (get-or-create by name), `asset_types` (`INSERT OR IGNORE`, unique
`(source_id, name)`) and `asset_fields` (`INSERT OR IGNORE`, unique
`(asset_type_id, field_path)`).  Row ids are assigned by length-based
autoincrement; the `asset_fields` row id and the append-only `search_index`
writes play no part in the field-row claim and are not modelled.  `sources`
rows are modelled with the columns the dedup key reads (id and name). -/

structure DatabaseFileInfo where
  fileName : String
  assetType : String
  fileExtension : String
  fields : List ExtractedField
deriving DecidableEq, Repr

/-- `DATABASE_TO_ASSET` (lines 35-65): filename → (assetType, extension,
description). -/
def databaseToAsset : List (String × String × String × String) :=
  [("StarObjectDatabase.cpp", "object", ".object",
    "Placeable objects — furniture, crafting stations, wired objects, containers, etc."),
   ("StarItemDatabase.cpp", "item", ".item",
    "Generic items — crafting materials, consumables, quest items. Also handles recipe files."),
   ("StarProjectileDatabase.cpp", "projectile", ".projectile",
    "Projectile definitions — bullets, rockets, energy bolts, thrown items, etc."),
   ("StarMonsterDatabase.cpp", "monster", ".monstertype",
    "Monster type definitions — behavior, stats, drops, animations, etc."),
   ("StarNpcDatabase.cpp", "npc", ".npctype",
    "NPC type definitions — scripts, items, behavior, spawning, etc."),
   ("StarBiomeDatabase.cpp", "biome", ".biome",
    "Biome definitions — terrain generation, flora, fauna, weather, music, etc."),
   ("StarMaterialDatabase.cpp", "material", ".material",
    "Material/block definitions — collision, health, rendering, interactions, etc."),
   ("StarLiquidsDatabase.cpp", "liquid", ".liquid",
    "Liquid definitions — color, physics, status effects, interactions, etc."),
   ("StarStatusEffectDatabase.cpp", "statuseffect", ".statuseffect",
    "Status effect definitions — buffs, debuffs, environmental effects, etc."),
   ("StarTechDatabase.cpp", "tech", ".tech",
    "Tech definitions — player abilities like double jump, dash, sphere, etc."),
   ("StarCodexDatabase.cpp", "codex", ".codex",
    "Codex entries — lore books, data logs, blueprints, etc."),
   ("StarVehicleDatabase.cpp", "vehicle", ".vehicle",
    "Vehicle definitions — hoverbikes, boats, mechs, etc."),
   ("StarStagehandDatabase.cpp", "stagehand", ".stagehand",
    "Stagehand definitions — invisible world entities that run scripts (triggers, spawners, etc.)"),
   ("StarTenantDatabase.cpp", "tenant", ".tenant",
    "Tenant/colony deed definitions — what NPCs can move in based on furniture tags."),
   ("StarQuestTemplateDatabase.cpp", "quest", ".questtemplate",
    "Quest template definitions — objectives, rewards, dialog, etc."),
   ("StarDamageDatabase.cpp", "damagetype", ".damage",
    "Damage type definitions — damage kinds, resistances, knockback, etc."),
   ("StarParticleDatabase.cpp", "particle", ".particle",
    "Particle effect definitions — visual effects, trails, explosions, etc."),
   ("StarPlantDatabase.cpp", "plant", ".modularstem",
    "Plant definitions — trees, saplings, growth stages, etc."),
   ("StarSpeciesDatabase.cpp", "species", ".species",
    "Species definitions — humanoid config, overrides, etc."),
   ("StarDanceDatabase.cpp", "dance", ".dance",
    "Dance emote definitions."),
   ("StarEffectSourceDatabase.cpp", "effectsource", ".effectsource",
    "Effect source definitions — named effect emitters."),
   ("StarSpawnTypeDatabase.cpp", "spawntype", ".spawntypes",
    "Spawn type definitions — monster/NPC spawn profiles for biomes."),
   ("StarRadioMessageDatabase.cpp", "radiomessage", ".radiomessages",
    "Radio message definitions — SAIL communications, popup messages."),
   ("StarCollectionDatabase.cpp", "collection", ".collection",
    "Collection definitions — in-game collectible tracking."),
   ("StarTerrainDatabase.cpp", "terrain", ".terrain",
    "Terrain generation selector definitions."),
   ("StarAiDatabase.cpp", "ai", ".aimission",
    "AI mission definitions — SAIL AI interface missions."),
   ("StarBehaviorDatabase.cpp", "behavior", ".behavior",
    "Behavior tree definitions — NPC/monster AI behavior trees."),
   ("StarStatisticsDatabase.cpp", "statistics", ".event",
    "Statistics/achievement event definitions."),
   ("StarTilesetDatabase.cpp", "tileset", ".tileset",
    "Tileset definitions for dungeon/structure generation.")]

structure SourceRow where
  id : Nat
  name : String
deriving DecidableEq, Repr

structure AssetTypeRow where
  id : Nat
  sourceId : Nat
  name : String
  fileExtension : String
  description : String
  basePath : String
deriving DecidableEq, Repr

structure AssetFieldRow where
  assetTypeId : Nat
  fieldPath : String
  type : String
  description : String
  required : Nat
  defaultValue : Option String
deriving DecidableEq, Repr

structure Store where
  sources : List SourceRow
  assetTypes : List AssetTypeRow
  assetFields : List AssetFieldRow
deriving DecidableEq, Repr

def findSourceId (st : Store) (name : String) : Option Nat :=
  (st.sources.find? (fun r => r.name == name)).map (fun r => r.id)

/-- Get-or-create of the `openstarbound` source row (lines 295-304). -/
def getOrCreateSource (st : Store) (name : String) : Store × Nat :=
  match findSourceId st name with
  | some i => (st, i)
  | none =>
    let i := st.sources.length + 1
    ({ st with sources := st.sources ++ [{ id := i, name := name }] }, i)

def hasAssetType (st : Store) (sid : Nat) (name : String) : Bool :=
  st.assetTypes.any (fun r => r.sourceId == sid && r.name == name)

/-- `INSERT OR IGNORE INTO asset_types` keyed by `UNIQUE(source_id, name)`. -/
def insertAssetTypeRow (st : Store) (sid : Nat) (name ext desc basePath : String) : Store :=
  if hasAssetType st sid name then st
  else { st with assetTypes := st.assetTypes ++
          [{ id := st.assetTypes.length + 1, sourceId := sid, name := name,
             fileExtension := ext, description := desc, basePath := basePath }] }

def findAssetTypeId (st : Store) (sid : Nat) (name : String) : Option Nat :=
  (st.assetTypes.find? (fun r => r.sourceId == sid && r.name == name)).map (fun r => r.id)

def hasFieldRow (st : Store) (tid : Nat) (path : String) : Bool :=
  st.assetFields.any (fun r => r.assetTypeId == tid && r.fieldPath == path)

def jsTrimStr (s : String) : String := (jsTrim s.toList).asString

/-- The stored field description (line 340). -/
def fieldRowDescription (f : ExtractedField) : String :=
  jsTrimStr ("Extracted from " ++ f.sourceFile ++ ":" ++ toString f.lineNumber ++ ". " ++
    (if f.optional then "Optional." else "Required.") ++ " " ++
    (match f.defaultValue with
     | some d => "Default: " ++ d
     | none => ""))

/-- `INSERT OR IGNORE INTO asset_fields` keyed by
`UNIQUE(asset_type_id, field_path)` (lines 313-316, 342-349, schema.ts 52-63). -/
def insertFieldRow (st : Store) (tid : Nat) (f : ExtractedField) : Store :=
  if hasFieldRow st tid f.fieldName then st
  else { st with assetFields := st.assetFields ++
          [{ assetTypeId := tid, fieldPath := f.fieldName, type := f.type,
             description := fieldRowDescription f,
             required := if f.optional then 0 else 1,
             defaultValue := f.defaultValue }] }

/-- The per-file body of the storage transaction (lines 327-356). -/
def processDbFile (sid : Nat) (st : Store) (f : DatabaseFileInfo) : Store :=
  match List.lookup f.fileName databaseToAsset with
  | none => st
  | some m =>
    let st1 := insertAssetTypeRow st sid m.1 m.2.1 m.2.2 ""
    match findAssetTypeId st1 sid m.1 with
    | none => st1
    | some tid => f.fields.foldl (fun s fld => insertFieldRow s tid fld) st1

/-- The storage step of `insertExtractedData` restricted to the tables the
field rows depend on. -/
def insertExtractedData (dbFiles : List DatabaseFileInfo) (st : Store) : Store :=
  let p := getOrCreateSource st "openstarbound"
  dbFiles.foldl (processDbFile p.2) p.1

theorem insertAssetTypeRow_sources (st : Store) (sid : Nat) (n e d b : String) :
    (insertAssetTypeRow st sid n e d b).sources = st.sources := by
  rw [insertAssetTypeRow]; split <;> rfl

theorem insertAssetTypeRow_assetFields (st : Store) (sid : Nat) (n e d b : String) :
    (insertAssetTypeRow st sid n e d b).assetFields = st.assetFields := by
  rw [insertAssetTypeRow]; split <;> rfl

theorem insertFieldRow_sources (st : Store) (tid : Nat) (f : ExtractedField) :
    (insertFieldRow st tid f).sources = st.sources := by
  rw [insertFieldRow]; split <;> rfl

theorem foldl_insertFieldRow_sources (l : List ExtractedField) (st : Store) (tid : Nat) :
    (l.foldl (fun s fld => insertFieldRow s tid fld) st).sources = st.sources := by
  induction l generalizing st with
  | nil => rfl
  | cons f rest ih => rw [List.foldl_cons, ih, insertFieldRow_sources]

theorem processDbFile_sources (sid : Nat) (st : Store) (f : DatabaseFileInfo) :
    (processDbFile sid st f).sources = st.sources := by
  rw [processDbFile]
  split
  · rfl
  · dsimp only
    split
    · exact insertAssetTypeRow_sources ..
    · rw [foldl_insertFieldRow_sources, insertAssetTypeRow_sources]

theorem foldl_processDbFile_sources (sid : Nat) (fs : List DatabaseFileInfo) (st : Store) :
    (fs.foldl (processDbFile sid) st).sources = st.sources := by
  induction fs generalizing st with
  | nil => rfl
  | cons g rest ih => rw [List.foldl_cons, ih, processDbFile_sources]

/-- A run only appends asset-type and asset-field rows and leaves sources
unchanged. -/
def StoreExt (st st' : Store) : Prop :=
  st'.sources = st.sources ∧ st.assetTypes <+: st'.assetTypes ∧ st.assetFields <+: st'.assetFields

theorem storeExt_refl (st : Store) : StoreExt st st := ⟨rfl, List.prefix_refl _, List.prefix_refl _⟩

theorem storeExt_trans {a b c : Store} (h1 : StoreExt a b) (h2 : StoreExt b c) : StoreExt a c :=
  ⟨h2.1.trans h1.1, h1.2.1.trans h2.2.1, h1.2.2.trans h2.2.2⟩

theorem insertAssetTypeRow_ext (st : Store) (sid : Nat) (n e d b : String) :
    StoreExt st (insertAssetTypeRow st sid n e d b) := by
  rw [insertAssetTypeRow]; split
  · exact storeExt_refl st
  · exact ⟨rfl, List.prefix_append _ _, List.prefix_refl _⟩

theorem insertFieldRow_ext (st : Store) (tid : Nat) (f : ExtractedField) :
    StoreExt st (insertFieldRow st tid f) := by
  rw [insertFieldRow]; split
  · exact storeExt_refl st
  · exact ⟨rfl, List.prefix_refl _, List.prefix_append _ _⟩

theorem foldl_insertFieldRow_ext (l : List ExtractedField) (st : Store) (tid : Nat) :
    StoreExt st (l.foldl (fun s fld => insertFieldRow s tid fld) st) := by
  induction l generalizing st with
  | nil => exact storeExt_refl st
  | cons f rest ih =>
      rw [List.foldl_cons]
      exact storeExt_trans (insertFieldRow_ext st tid f) (ih _)

theorem processDbFile_ext (sid : Nat) (st : Store) (f : DatabaseFileInfo) :
    StoreExt st (processDbFile sid st f) := by
  rw [processDbFile]
  split
  · exact storeExt_refl st
  · dsimp only
    split
    · exact insertAssetTypeRow_ext ..
    · exact storeExt_trans (insertAssetTypeRow_ext ..) (foldl_insertFieldRow_ext ..)

theorem foldl_processDbFile_ext (sid : Nat) (fs : List DatabaseFileInfo) (st : Store) :
    StoreExt st (fs.foldl (processDbFile sid) st) := by
  induction fs generalizing st with
  | nil => exact storeExt_refl st
  | cons g rest ih =>
      rw [List.foldl_cons]
      exact storeExt_trans (processDbFile_ext sid st g) (ih _)

theorem find?_stable {α : Type} {p : α → Bool} {l l' : List α} (h : l <+: l') {x : α}
    (hx : l.find? p = some x) : l'.find? p = some x := by
  obtain ⟨t, rfl⟩ := h
  rw [List.find?_append, hx]
  rfl

theorem hasAssetType_stable {st st' : Store} (h : StoreExt st st') {sid : Nat} {n : String}
    (hx : hasAssetType st sid n = true) : hasAssetType st' sid n = true := by
  rw [hasAssetType, List.any_eq_true] at hx ⊢
  obtain ⟨x, hm, hp⟩ := hx
  exact ⟨x, h.2.1.sublist.subset hm, hp⟩

theorem hasFieldRow_stable {st st' : Store} (h : StoreExt st st') {tid : Nat} {path : String}
    (hx : hasFieldRow st tid path = true) : hasFieldRow st' tid path = true := by
  rw [hasFieldRow, List.any_eq_true] at hx ⊢
  obtain ⟨x, hm, hp⟩ := hx
  exact ⟨x, h.2.2.sublist.subset hm, hp⟩

theorem findAssetTypeId_stable {st st' : Store} (h : StoreExt st st') {sid : Nat} {n : String}
    {i : Nat} (hx : findAssetTypeId st sid n = some i) : findAssetTypeId st' sid n = some i := by
  rw [findAssetTypeId] at hx ⊢
  rcases hf : st.assetTypes.find? (fun r => r.sourceId == sid && r.name == n) with _ | r
  · rw [hf] at hx; cases hx
  · rw [hf] at hx
    rw [find?_stable h.2.1 hf]
    exact hx

theorem hasAssetType_insert (st : Store) (sid : Nat) (n e d b : String) :
    hasAssetType (insertAssetTypeRow st sid n e d b) sid n = true := by
  rw [insertAssetTypeRow]; split
  · next h => exact h
  · rw [hasAssetType, List.any_append]
    simp

theorem insertAssetTypeRow_of_has {st : Store} {sid : Nat} {n : String} (e d b : String)
    (h : hasAssetType st sid n = true) : insertAssetTypeRow st sid n e d b = st := by
  rw [insertAssetTypeRow, if_pos h]

theorem findAssetTypeId_isSome_of_has {st : Store} {sid : Nat} {n : String}
    (h : hasAssetType st sid n = true) : ∃ i, findAssetTypeId st sid n = some i := by
  rw [hasAssetType, List.any_eq_true] at h
  rcases hf : st.assetTypes.find? (fun r => r.sourceId == sid && r.name == n) with _ | r
  · have : (st.assetTypes.find? (fun r => r.sourceId == sid && r.name == n)).isSome :=
      List.find?_isSome.2 h
    rw [hf] at this
    cases this
  · exact ⟨r.id, by rw [findAssetTypeId, hf]; rfl⟩

theorem insertFieldRow_of_has {st : Store} {tid : Nat} {f : ExtractedField}
    (h : hasFieldRow st tid f.fieldName = true) : insertFieldRow st tid f = st := by
  rw [insertFieldRow, if_pos h]

theorem hasFieldRow_insert_self (st : Store) (tid : Nat) (f : ExtractedField) :
    hasFieldRow (insertFieldRow st tid f) tid f.fieldName = true := by
  rw [insertFieldRow]; split
  · next h => exact h
  · rw [hasFieldRow, List.any_append]
    simp

theorem foldl_insertFieldRow_has (l : List ExtractedField) (st : Store) (tid : Nat) :
    ∀ f ∈ l, hasFieldRow (l.foldl (fun s fld => insertFieldRow s tid fld) st) tid
      f.fieldName = true := by
  induction l generalizing st with
  | nil => simp
  | cons g rest ih =>
      intro f hf
      rw [List.foldl_cons]
      rcases List.mem_cons.1 hf with rfl | hf
      · exact hasFieldRow_stable (foldl_insertFieldRow_ext rest _ tid)
          (hasFieldRow_insert_self st tid f)
      · exact ih _ f hf

theorem foldl_insertFieldRow_of_all_has (l : List ExtractedField) (st : Store) (tid : Nat)
    (h : ∀ f ∈ l, hasFieldRow st tid f.fieldName = true) :
    l.foldl (fun s fld => insertFieldRow s tid fld) st = st := by
  induction l with
  | nil => rfl
  | cons g rest ih =>
      rw [List.foldl_cons, insertFieldRow_of_has (h g (List.mem_cons_self g rest))]
      exact ih (fun f hf => h f (List.mem_cons_of_mem g hf))

theorem processDbFile_absorb (sid : Nat) (st R : Store) (f : DatabaseFileInfo)
    (hExt : StoreExt (processDbFile sid st f) R) : processDbFile sid R f = R := by
  rcases hm : List.lookup f.fileName databaseToAsset with _ | m
  · simp only [processDbFile, hm]
  · have hhas1 : hasAssetType (insertAssetTypeRow st sid m.1 m.2.1 m.2.2 "") sid m.1 = true :=
      hasAssetType_insert st sid m.1 m.2.1 m.2.2 ""
    obtain ⟨tid, htid⟩ := findAssetTypeId_isSome_of_has hhas1
    have hPdef : processDbFile sid st f =
        f.fields.foldl (fun s fld => insertFieldRow s tid fld)
          (insertAssetTypeRow st sid m.1 m.2.1 m.2.2 "") := by
      simp only [processDbFile, hm, htid]
    have hExt1 : StoreExt (insertAssetTypeRow st sid m.1 m.2.1 m.2.2 "") R :=
      storeExt_trans (hPdef ▸ foldl_insertFieldRow_ext f.fields _ tid) hExt
    have hhasR : hasAssetType R sid m.1 = true := hasAssetType_stable hExt1 hhas1
    have htidR : findAssetTypeId R sid m.1 = some tid := findAssetTypeId_stable hExt1 htid
    have hfieldsR : ∀ fld ∈ f.fields, hasFieldRow R tid fld.fieldName = true := by
      intro fld hf
      exact hasFieldRow_stable (hPdef ▸ hExt) (foldl_insertFieldRow_has f.fields _ tid fld hf)
    rw [processDbFile, hm]
    simp only [insertAssetTypeRow_of_has m.2.1 m.2.2 "" hhasR, htidR]
    exact foldl_insertFieldRow_of_all_has f.fields R tid hfieldsR

theorem foldl_processDbFile_absorb_all (sid : Nat) (fs : List DatabaseFileInfo) (st : Store) :
    ∀ f ∈ fs, processDbFile sid (fs.foldl (processDbFile sid) st) f =
      fs.foldl (processDbFile sid) st := by
  induction fs generalizing st with
  | nil => simp
  | cons g rest ih =>
      intro f hf
      rw [List.foldl_cons]
      rcases List.mem_cons.1 hf with rfl | hf
      · exact processDbFile_absorb sid st _ f (foldl_processDbFile_ext sid rest _)
      · exact ih _ f hf

theorem foldl_processDbFile_fix (sid : Nat) (fs : List DatabaseFileInfo) (R : Store)
    (h : ∀ f ∈ fs, processDbFile sid R f = R) : fs.foldl (processDbFile sid) R = R := by
  induction fs with
  | nil => rfl
  | cons g rest ih =>
      rw [List.foldl_cons, h g (List.mem_cons_self g rest)]
      exact ih (fun f hf => h f (List.mem_cons_of_mem g hf))

theorem findSourceId_congr {st st' : Store} (h : st'.sources = st.sources) (n : String) :
    findSourceId st' n = findSourceId st n := by
  rw [findSourceId, findSourceId, h]

theorem getOrCreateSource_find (st : Store) (n : String) :
    findSourceId (getOrCreateSource st n).1 n = some (getOrCreateSource st n).2 := by
  rcases hf : findSourceId st n with _ | i
  · have hnone : st.sources.find? (fun r => r.name == n) = none := by
      rw [findSourceId] at hf
      rcases hg : st.sources.find? (fun r => r.name == n) with _ | r
      · exact hg
      · rw [hg] at hf; cases hf
    rw [getOrCreateSource, hf]
    simp [findSourceId, List.find?_append, hnone]
  · rw [getOrCreateSource, hf]
    exact hf

theorem getOrCreateSource_of_found {st : Store} {n : String} {i : Nat}
    (h : findSourceId st n = some i) : getOrCreateSource st n = (st, i) := by
  rw [getOrCreateSource, h]

/-- The uniqueness invariant of `asset_fields`: no two rows share the
`(asset_type_id, field_path)` key. -/
def fieldKeysDistinct (l : List AssetFieldRow) : Prop :=
  l.Pairwise (fun a b => ¬(a.assetTypeId = b.assetTypeId ∧ a.fieldPath = b.fieldPath))

theorem insertFieldRow_keysDistinct {st : Store} (tid : Nat) (f : ExtractedField)
    (h : fieldKeysDistinct st.assetFields) :
    fieldKeysDistinct (insertFieldRow st tid f).assetFields := by
  rw [insertFieldRow]; split
  · exact h
  · next hhas =>
      show fieldKeysDistinct (st.assetFields ++ [_])
      rw [fieldKeysDistinct, List.pairwise_append]
      refine ⟨h, List.pairwise_singleton _ _, ?_⟩
      intro a ha b hb
      rw [List.mem_singleton] at hb
      subst hb
      rintro ⟨h1, h2⟩
      have : hasFieldRow st tid f.fieldName = true := by
        rw [hasFieldRow, List.any_eq_true]
        refine ⟨a, ha, ?_⟩
        simp only [Bool.and_eq_true, beq_iff_eq]
        exact ⟨h1, h2⟩
      simp [this] at hhas

theorem foldl_insertFieldRow_keysDistinct (l : List ExtractedField) (st : Store) (tid : Nat)
    (h : fieldKeysDistinct st.assetFields) :
    fieldKeysDistinct ((l.foldl (fun s fld => insertFieldRow s tid fld) st).assetFields) := by
  induction l generalizing st with
  | nil => exact h
  | cons g rest ih =>
      rw [List.foldl_cons]
      exact ih _ (insertFieldRow_keysDistinct tid g h)

theorem processDbFile_keysDistinct (sid : Nat) (st : Store) (f : DatabaseFileInfo)
    (h : fieldKeysDistinct st.assetFields) :
    fieldKeysDistinct (processDbFile sid st f).assetFields := by
  rw [processDbFile]
  split
  · exact h
  · dsimp only
    split
    · rw [insertAssetTypeRow_assetFields]; exact h
    · exact foldl_insertFieldRow_keysDistinct _ _ _ (by rw [insertAssetTypeRow_assetFields]; exact h)

theorem foldl_processDbFile_keysDistinct (sid : Nat) (fs : List DatabaseFileInfo) (st : Store)
    (h : fieldKeysDistinct st.assetFields) :
    fieldKeysDistinct ((fs.foldl (processDbFile sid) st).assetFields) := by
  induction fs generalizing st with
  | nil => exact h
  | cons g rest ih =>
      rw [List.foldl_cons]
      exact ih _ (processDbFile_keysDistinct sid st g h)

theorem getOrCreateSource_assetFields (st : Store) (n : String) :
    (getOrCreateSource st n).1.assetFields = st.assetFields := by
  rw [getOrCreateSource]
  rcases findSourceId st n with _ | i <;> rfl

/-- C6 -- Re-running the field extractor's storage step on unchanged input is
idempotent: the second run leaves the whole store (in particular every stored
asset-field row) exactly as after the first run, because field insertion is
insert-or-ignore keyed by `(asset_type_id, field_path)`; and the storage step
preserves the key-uniqueness invariant, so no duplicate field row is ever
created. -/
theorem insertExtractedData_idempotent (fs : List DatabaseFileInfo) (st : Store) :
    insertExtractedData fs (insertExtractedData fs st) = insertExtractedData fs st ∧
    (fieldKeysDistinct st.assetFields →
      fieldKeysDistinct (insertExtractedData fs st).assetFields) := by
  constructor
  · have hfind : findSourceId (insertExtractedData fs st) "openstarbound" =
        some (getOrCreateSource st "openstarbound").2 := by
      rw [insertExtractedData]
      rw [findSourceId_congr (foldl_processDbFile_sources _ fs _) "openstarbound"]
      exact getOrCreateSource_find st "openstarbound"
    show (let p := getOrCreateSource (insertExtractedData fs st) "openstarbound"
          fs.foldl (processDbFile p.2) p.1) = insertExtractedData fs st
    rw [getOrCreateSource_of_found hfind]
    exact foldl_processDbFile_fix _ fs _
      (foldl_processDbFile_absorb_all (getOrCreateSource st "openstarbound").2 fs
        (getOrCreateSource st "openstarbound").1)
  · intro h
    rw [insertExtractedData]
    refine foldl_processDbFile_keysDistinct _ fs _ ?_
    rw [getOrCreateSource_assetFields]
    exact h

def osbDbFileW : DatabaseFileInfo :=
  { fileName := "StarObjectDatabase.cpp", assetType := "object", fileExtension := ".object",
    fields := extractFieldsFromFile "StarObjectDatabase.cpp" osbExampleContent }

/-- Witness for C6 at a concrete file list over the empty store. -/
theorem insertExtractedData_idempotent_witness :
    insertExtractedData [osbDbFileW]
        (insertExtractedData [osbDbFileW] { sources := [], assetTypes := [], assetFields := [] }) =
      insertExtractedData [osbDbFileW] { sources := [], assetTypes := [], assetFields := [] } ∧
    fieldKeysDistinct
      (insertExtractedData [osbDbFileW]
        { sources := [], assetTypes := [], assetFields := [] }).assetFields :=
  ⟨(insertExtractedData_idempotent [osbDbFileW] _).1,
   (insertExtractedData_idempotent [osbDbFileW] _).2 List.Pairwise.nil⟩

end StarboundMcp
